import Mathlib

/-!
Shallow embedding of the marketplace backend (`app.py`): the versioned
schema-migration runner (`init_db`), the seller/product/image resource store,
image intake (`_sniff_and_get_ext`, `save_upload_image`), the product-creation
workflow (`create_product`), the read side (`list_products` image assembly),
product deletion, and seller registration (`sellers_register`,
`normalize_whatsapp`).

Python strings are modelled as Lean `String` (with `List Char` helpers for
the character-level operations `strip`, `replace`, `isdigit`).  SQLite rows
are modelled as Lean structures and tables as lists of rows with an explicit
autoincrement counter.  Floating-point prices are modelled as rationals (no
claim depends on float rounding).  The Pillow decoder, an external
collaborator, is modelled as an abstract function from byte content to an
optional decoded format, passed in as a parameter.
-/

namespace Marketplace

/-! ## Python string primitives -/

/-- Python `str.strip()` on a list of characters: drop whitespace from both
ends. -/
def pyStripL (l : List Char) : List Char :=
  ((l.dropWhile Char.isWhitespace).reverse.dropWhile Char.isWhitespace).reverse

/-- Python `str.replace(" ", "")`: remove every space character. -/
def removeSpacesL (l : List Char) : List Char :=
  l.filter (fun c => c ≠ ' ')

/-- Python `str.strip()` on `String`. -/
def pyStrip (s : String) : String :=
  (pyStripL s.toList).asString

/-- `normalize_whatsapp` from app.py lines 137-143:
strip, remove spaces, then keep a leading `+` if present and filter the rest
to digits; otherwise filter the whole string to digits.  Python's
`ch.isdigit()` is modelled as ASCII `Char.isDigit` (phone input characters). -/
def normalize_whatsappL (l : List Char) : List Char :=
  let s := removeSpacesL (pyStripL l)
  if s.head? = some '+' then '+' :: (s.tail.filter Char.isDigit)
  else s.filter Char.isDigit

/-- `normalize_whatsapp` on `String`. -/
def normalize_whatsapp (s : String) : String :=
  (normalize_whatsappL s.toList).asString

/-! ## Image intake -/

/-- Raster formats the Pillow collaborator can report.  `JPEG`, `PNG`, `WEBP`
are on the allow-list of `_sniff_and_get_ext`; the others stand for any
decodable but disallowed format. -/
inductive PILFormat
  | JPEG | PNG | WEBP | GIF | BMP
  deriving DecidableEq, Repr

/-- An uploaded file as werkzeug hands it to the handler: caller-supplied
filename and declared content type (both untrusted and never consulted by
the sniffing code), plus the raw bytes. -/
structure FileUpload where
  filename : String
  content_type : String
  bytes : List Nat
  deriving DecidableEq, Repr

/-- Python-exception kinds relevant to the workflow.  `valueError` is the
class the `create_product` handler catches; `nonterminating` marks the
(unreachable under an injective name generator) case where the
filename-collision loop never finds a fresh name, i.e. the request never
returns. -/
inductive PyError
  | valueError (msg : String)
  | nonterminating
  deriving DecidableEq, Repr

/-- `ALLOWED_IMAGE_EXTS` from app.py line 162. -/
def ALLOWED_IMAGE_EXTS : List String := [".jpg", ".jpeg", ".png", ".webp"]

/-- `_sniff_and_get_ext` from app.py lines 165-184: decode the actual bytes
(`decode` models `PIL.Image.open` + `verify`; per the spec's Image Intake
contract, any content that does not decode as an image is rejected with the
same catchable unsupported-format error), then map the detected format to a
safe extension, rejecting formats outside {JPEG, PNG, WEBP}.  The
caller-supplied filename and content type are never consulted. -/
def sniff_and_get_ext (decode : List Nat → Option PILFormat) (f : FileUpload) :
    Except PyError String :=
  match decode f.bytes with
  | none => .error (.valueError "Unsupported image format")
  | some .JPEG => .ok ".jpg"
  | some .PNG => .ok ".png"
  | some .WEBP => .ok ".webp"
  | some _ => .error (.valueError "Unsupported image format")

/-- The collision-avoiding name search of `save_upload_image` (app.py lines
192-198): draw candidate names `gen 0 ++ ext, gen 1 ++ ext, ...` (the `gen i`
model successive `uuid.uuid4().hex` draws) and return the first whose full
filename does not already exist.  The source loop is unbounded; when `gen`
is injective, a fresh name occurs among the first `files.length + 1`
candidates, so searching that prefix computes exactly the loop's result
(`none` can only arise from a non-injective generator, where the loop
diverges). -/
def pickFresh (gen : Nat → String) (ext : String) (files : List String) :
    Option String :=
  (List.range (files.length + 1)).map (fun i => gen i ++ ext)
    |>.find? (fun n => decide (n ∉ files))

/-- `save_upload_image` from app.py lines 187-201: sniff the real format,
re-check the extension against `ALLOWED_IMAGE_EXTS`, generate a filename that
collides with no existing file (re-checking before the write), then write.
Returns the result together with the new contents of the upload directory;
on failure nothing is written. -/
def save_upload_image (decode : List Nat → Option PILFormat) (gen : Nat → String)
    (files : List String) (f : FileUpload) :
    Except PyError String × List String :=
  match sniff_and_get_ext decode f with
  | .error e => (.error e, files)
  | .ok ext =>
    if ext ∈ ALLOWED_IMAGE_EXTS then
      match pickFresh gen ext files with
      | some fn => (.ok fn, files ++ [fn])
      | none => (.error .nonterminating, files)
    else (.error (.valueError "Unsupported image type"), files)

/-! ## The resource store -/

/-- A row of the `sellers` table (migration v2). -/
structure SellerRow where
  id : Nat
  name : String
  whatsapp : String
  pin_hash : String
  created_at : String
  deriving DecidableEq, Repr

/-- A row of the `products` table (migration v1 plus the v3 `seller_id`
column, nullable). -/
structure ProductRow where
  id : Nat
  name : String
  price : ℚ
  details : String
  created_at : String
  seller_id : Option Nat
  deriving DecidableEq, Repr

/-- A row of the `product_images` table (migration v4). -/
structure ImageRow where
  id : Nat
  product_id : Nat
  filename : String
  sort_order : Nat
  created_at : String
  deriving DecidableEq, Repr

/-- The mutable state the request handlers act on: the three tables with
their autoincrement counters, the set of files in the upload directory,
and the seller ids held by live sessions (`session["seller_id"]` values,
which the code only ever sets from an existing row on register/login). -/
structure St where
  sellers : List SellerRow
  products : List ProductRow
  images : List ImageRow
  files : List String
  sessions : List Nat
  nextSellerId : Nat
  nextProductId : Nat
  nextImageId : Nat
  deriving DecidableEq, Repr

/-- The empty store: fresh database, empty upload directory, no sessions.
SQLite row ids start at 1. -/
def St.empty : St :=
  { sellers := [], products := [], images := [], files := [], sessions := []
    nextSellerId := 1, nextProductId := 1, nextImageId := 1 }

/-- Well-formedness of a store state: every row id is below its table's
autoincrement counter and every image row references an already-allocated
product id.  Holds of the empty store and is preserved by the handlers. -/
def StWF (st : St) : Prop :=
  (∀ s ∈ st.sellers, s.id < st.nextSellerId) ∧
  (∀ p ∈ st.products, p.id < st.nextProductId) ∧
  (∀ ir ∈ st.images, ir.id < st.nextImageId ∧ ir.product_id < st.nextProductId)

instance (st : St) : Decidable (StWF st) := by
  unfold StWF; infer_instance

/-- Error outcomes of the HTTP handlers, by response class. -/
inductive ApiError
  | loginRequired
  | invalidCredentials
  | badRequest (msg : String)
  | conflict (msg : String)
  | notFound
  | forbidden
  | internal
  deriving DecidableEq, Repr

/-! ## Seller registration -/

/-- Python `pin.isdigit()`: nonempty and all ASCII digits. -/
def pyIsdigit (s : String) : Bool :=
  s.toList ≠ [] && s.toList.all Char.isDigit

/-- `sellers_register` from app.py lines 245-279.  `hashPin` models the
external `generate_password_hash` collaborator; `now` models `now_utc()`.
Validation: name length in [2,60] after strip, normalized whatsapp nonempty
and at least 10 characters, PIN 4-8 digits.  The unique index
`idx_sellers_whatsapp` (migration v2) makes the insert raise
`IntegrityError` when the normalized number is already present, surfaced as
a 409 conflict with no state change; on success the new row is inserted and
its id put in the session. -/
def sellers_register (hashPin : String → String) (now : String)
    (name_in whatsapp_in pin_in : String) (st : St) :
    St × Except ApiError SellerRow :=
  let name := pyStrip name_in
  let whatsapp := normalize_whatsapp whatsapp_in
  let pin := pyStrip pin_in
  if name.length < 2 || name.length > 60 then
    (st, .error (.badRequest "Invalid name"))
  else if whatsapp.length = 0 || whatsapp.length < 10 then
    (st, .error (.badRequest "Invalid WhatsApp"))
  else if !(pyIsdigit pin && 4 ≤ pin.length && pin.length ≤ 8) then
    (st, .error (.badRequest "PIN must be 4-8 digits"))
  else if st.sellers.any (fun s => s.whatsapp == whatsapp) then
    (st, .error (.conflict "WhatsApp already registered"))
  else
    let row : SellerRow :=
      { id := st.nextSellerId, name := name, whatsapp := whatsapp
        pin_hash := hashPin pin, created_at := now }
    ({ st with sellers := st.sellers ++ [row]
               sessions := st.sessions ++ [row.id]
               nextSellerId := st.nextSellerId + 1 },
     .ok row)

/-! ## Product creation workflow -/

/-- The image loop of `create_product` (app.py lines 429-440): iterate over
`enumerate(files)`, skipping entries with an empty filename; for each kept
upload call `save_upload_image` and insert a `product_images` row whose
`sort_order` is the enumerate index; abort at the first error, keeping the
list of filenames saved so far for the compensation path.  `gen i` is the
uuid-hex stream consumed by the `i`-th image's collision loop. -/
def uploadLoop (decode : List Nat → Option PILFormat) (gen : Nat → Nat → String)
    (pid : Nat) (now : String) :
    List (Nat × FileUpload) → St → List String → St × List String × Option PyError
  | [], st, saved => (st, saved, none)
  | (i, f) :: rest, st, saved =>
    if f.filename = "" then uploadLoop decode gen pid now rest st saved
    else
      match save_upload_image decode (gen i) st.files f with
      | (.error e, files') => ({ st with files := files' }, saved, some e)
      | (.ok fn, files') =>
        let st' := { st with files := files'
                             images := st.images ++
                               [⟨st.nextImageId, pid, fn, i, now⟩]
                             nextImageId := st.nextImageId + 1 }
        uploadLoop decode gen pid now rest st' (saved ++ [fn])

/-- `create_product` from app.py lines 383-471.  `sid` is the session's
resolved seller id (`current_seller_id()`), `price` the result of parsing
the price form field (`none` = missing or unparseable), `files_in` the
multipart upload list.  Validation failures return before any write.  The
product row is inserted and committed first; then the image loop runs; a
`ValueError` from image intake triggers the compensation path: delete the
product row (its image rows cascade via the v4 foreign key), best-effort
remove every file saved in this call, and surface the message as a 400.
The `nonterminating` marker (impossible under an injective name generator)
stands for the uncaught case where the request produces no 400/201. -/
def create_product (decode : List Nat → Option PILFormat) (gen : Nat → Nat → String)
    (now : String) (sid : Option Nat) (name_in details_in : String)
    (price : Option ℚ) (files_in : List FileUpload) (st : St) :
    St × Except ApiError (ProductRow × List String) :=
  match sid with
  | none => (st, .error .loginRequired)
  | some seller_id =>
    let name := pyStrip name_in
    let details := pyStrip details_in
    if name = "" || price.isNone || decide (price.getD 0 < 0) || details = "" then
      (st, .error (.badRequest "Invalid input"))
    else if files_in.length > 5 then
      (st, .error (.badRequest "Max 5 images allowed"))
    else
      let pid := st.nextProductId
      let row : ProductRow :=
        ⟨pid, name, price.getD 0, details, now, some seller_id⟩
      let st1 := { st with products := st.products ++ [row]
                           nextProductId := pid + 1 }
      match uploadLoop decode gen pid now files_in.enum st1 [] with
      | (st2, saved, none) => (st2, .ok (row, saved))
      | (st2, saved, some (.valueError msg)) =>
        (({ st2 with products := st2.products.filter (fun p => p.id ≠ pid)
                     images := st2.images.filter (fun ir => ir.product_id ≠ pid)
                     files := st2.files.filter (fun fn => fn ∉ saved) }),
         .error (.badRequest msg))
      | (st2, _, some .nonterminating) => (st2, .error .internal)

/-! ## Read side and deletion -/

/-- The `ORDER BY sort_order ASC, id ASC` comparison of the image batch
query in `list_products` (app.py line 338): lexicographic on
`(sort_order, id)`. -/
def imgLe (a b : ImageRow) : Bool :=
  a.sort_order < b.sort_order || (a.sort_order == b.sort_order && a.id ≤ b.id)

/-- The image assembly of `list_products` (app.py lines 333-342): the
filenames of the rows with the given product id, ordered by
`(sort_order ASC, id ASC)`. -/
def imagesFor (st : St) (pid : Nat) : List String :=
  ((st.images.filter (fun ir => ir.product_id == pid)).mergeSort imgLe).map
    (fun ir => ir.filename)

/-- `delete_product` from app.py lines 347-380: requires a logged-in seller
owning the product; deletes the product row (image rows cascade via the v4
foreign key) and best-effort removes the referenced files. -/
def delete_product (sid : Option Nat) (product_id : Nat) (st : St) :
    St × Except ApiError Unit :=
  match sid with
  | none => (st, .error .loginRequired)
  | some seller_id =>
    match st.products.find? (fun p => p.id == product_id) with
    | none => (st, .error .notFound)
    | some row =>
      if row.seller_id ≠ some seller_id then (st, .error .forbidden)
      else
        let filenames :=
          (st.images.filter (fun ir => ir.product_id == product_id)).map
            (fun ir => ir.filename)
        ({ st with products := st.products.filter (fun p => p.id ≠ product_id)
                   images := st.images.filter (fun ir => ir.product_id ≠ product_id)
                   files := st.files.filter (fun fn => fn ∉ filenames) },
         .ok ())

/-! ## Schema migration (init_db, app.py lines 34-130) -/

/-- The observable schema objects `init_db` manipulates, plus the migration
ledger (`schema_migrations` rows, in insertion order).  `ledger` is
meaningful only when `schema_migrations_tbl` is true. -/
structure SchemaState where
  schema_migrations_tbl : Bool
  ledger : List Nat
  products_tbl : Bool
  products_has_seller_id : Bool
  sellers_tbl : Bool
  idx_sellers_whatsapp : Bool
  idx_products_seller_id : Bool
  product_images_tbl : Bool
  idx_product_images_product_id : Bool
  deriving DecidableEq, Repr

/-- A fresh database file: nothing exists yet. -/
def SchemaState.fresh : SchemaState :=
  ⟨false, [], false, false, false, false, false, false, false⟩

/-- SQLite-level failure of a DDL statement (aborts `init_db`). -/
inductive SqlError
  | operationalError (msg : String)
  deriving DecidableEq, Repr

/-- The four migration steps of app.py lines 60-122. -/
inductive MigStep
  | v1 | v2 | v3 | v4
  deriving DecidableEq, Repr

/-- The version number of each step, as passed to `apply` (lines 124-127). -/
def stepVersion : MigStep → Nat
  | .v1 => 1
  | .v2 => 2
  | .v3 => 3
  | .v4 => 4

/-- The DDL action of each step.  `v1`: `CREATE TABLE IF NOT EXISTS products`.
`v2`: `CREATE TABLE IF NOT EXISTS sellers` + unique whatsapp index.
`v3`: inspect `PRAGMA table_info(products)` (empty when the table is absent),
add the `seller_id` column when missing — `ALTER TABLE` on an absent table is
an `OperationalError` — then `CREATE INDEX IF NOT EXISTS` on it.
`v4`: `CREATE TABLE IF NOT EXISTS product_images` (SQLite accepts the foreign
key clause regardless) + its index. -/
def stepAction : MigStep → SchemaState → Except SqlError SchemaState
  | .v1, st => .ok { st with products_tbl := true }
  | .v2, st => .ok { st with sellers_tbl := true, idx_sellers_whatsapp := true }
  | .v3, st =>
    if st.products_has_seller_id then
      .ok { st with idx_products_seller_id := true }
    else if st.products_tbl then
      .ok { st with products_has_seller_id := true, idx_products_seller_id := true }
    else
      .error (.operationalError "no such table: products")
  | .v4, st =>
    .ok { st with product_images_tbl := true, idx_product_images_product_id := true }

/-- `Ledger.recordApplied`: the `INSERT INTO schema_migrations` of `apply`
(line 57). -/
def recordApplied (version : Nat) (st : SchemaState) : SchemaState :=
  { st with ledger := st.ledger ++ [version] }

/-- `apply(version, fn)` from app.py lines 53-58: skip when the version is
already in the ledger; otherwise run the action, record the version, and
commit. -/
def runStep (s : MigStep) (st : SchemaState) : Except SqlError SchemaState :=
  if stepVersion s ∈ st.ledger then .ok st
  else (stepAction s st).map (recordApplied (stepVersion s))

/-- Run migration steps in the given list order, aborting at the first
failing DDL action. -/
def runSteps : List MigStep → SchemaState → Except SqlError SchemaState
  | [], st => .ok st
  | s :: rest, st => (runStep s st).bind (runSteps rest)

/-- The `CREATE TABLE IF NOT EXISTS schema_migrations` prologue of `init_db`
(lines 40-47): creates the ledger table (empty) when absent. -/
def ensureLedgerTable (st : SchemaState) : SchemaState :=
  if st.schema_migrations_tbl then st
  else { st with schema_migrations_tbl := true, ledger := [] }

/-- The step list in the order the source invokes `apply` (lines 124-127). -/
def migrationSteps : List MigStep := [.v1, .v2, .v3, .v4]

/-- `init_db` from app.py lines 34-130: ensure the ledger table, then run
the four migration steps in the hard-coded order v1, v2, v3, v4. -/
def init_db (st : SchemaState) : Except SqlError SchemaState :=
  runSteps migrationSteps (ensureLedgerTable st)

/-! ## Login, logout and reachable states -/

/-- `sellers_login` from app.py lines 282-303.  `checkPin hash pin` models
the external `check_password_hash`.  On success the row's id is added to the
live sessions. -/
def sellers_login (checkPin : String → String → Bool)
    (whatsapp_in pin_in : String) (st : St) : St × Except ApiError SellerRow :=
  let whatsapp := normalize_whatsapp whatsapp_in
  let pin := pyStrip pin_in
  if whatsapp.length = 0 || pin.length = 0 then
    (st, .error (.badRequest "whatsapp and pin required"))
  else
    match st.sellers.find? (fun s => s.whatsapp == whatsapp) with
    | none => (st, .error .invalidCredentials)
    | some row =>
      if !checkPin row.pin_hash pin then (st, .error .invalidCredentials)
      else ({ st with sessions := st.sessions ++ [row.id] }, .ok row)

/-- `sellers_logout` (app.py lines 306-309): drop the seller id from the
live sessions. -/
def sellers_logout (sid : Nat) (st : St) : St :=
  { st with sessions := st.sessions.filter (fun i => i ≠ sid) }

/-- One observable transition of the core: any request handler applied to
the current state.  `create_product` and `delete_product` receive the
session's resolved seller id, so their `sid` argument is constrained to a
value actually held by a live session (that is exactly what
`current_seller_id()` returns). -/
inductive Step : St → St → Prop
  | register (hash : String → String) (now n w p : String) {st : St} :
      Step st (sellers_register hash now n w p st).1
  | login (check : String → String → Bool) (w p : String) {st : St} :
      Step st (sellers_login check w p st).1
  | logout (sid : Nat) {st : St} : Step st (sellers_logout sid st)
  | createP (decode : List Nat → Option PILFormat) (gen : Nat → Nat → String)
      (now name details : String) (price : Option ℚ) (fs : List FileUpload)
      (sid : Option Nat) {st : St}
      (h : ∀ i, sid = some i → i ∈ st.sessions) :
      Step st (create_product decode gen now sid name details price fs st).1
  | deleteP (sid : Option Nat) (pid : Nat) {st : St}
      (h : ∀ i, sid = some i → i ∈ st.sessions) :
      Step st (delete_product sid pid st).1

/-- States reachable from the empty store by request handlers. -/
inductive Reach : St → Prop
  | init : Reach St.empty
  | step {st st' : St} : Reach st → Step st st' → Reach st'

/-! ## Character-level facts and the normalization claims -/

lemma char_isDigit_not_ws {c : Char} (h : c.isDigit = true) :
    c.isWhitespace = false := by
  by_contra hw
  simp only [Bool.not_eq_false, Char.isWhitespace] at hw
  simp only [Bool.or_eq_true, decide_eq_true_eq] at hw
  rcases hw with ((h' | h') | h') | h' <;> subst h' <;> simp [Char.isDigit] at h

lemma char_isDigit_ne_space {c : Char} (h : c.isDigit = true) : c ≠ ' ' := by
  rintro rfl; simp [Char.isDigit] at h

lemma char_plus_not_ws : ('+' : Char).isWhitespace = false := by decide

lemma char_plus_not_digit : ('+' : Char).isDigit = false := by decide

lemma dropWhile_eq_self_of_not {p : Char → Bool} :
    ∀ {l : List Char}, (∀ c ∈ l, p c = false) → l.dropWhile p = l
  | [], _ => rfl
  | c :: t, h => by
    simp [List.dropWhile_cons, h c (by simp)]

lemma pyStripL_eq_self {l : List Char} (h : ∀ c ∈ l, c.isWhitespace = false) :
    pyStripL l = l := by
  unfold pyStripL
  rw [dropWhile_eq_self_of_not h]
  rw [dropWhile_eq_self_of_not (fun c hc => h c (List.mem_reverse.mp hc))]
  exact List.reverse_reverse l

lemma removeSpacesL_eq_self {l : List Char} (h : ∀ c ∈ l, c ≠ ' ') :
    removeSpacesL l = l := by
  unfold removeSpacesL
  rw [List.filter_eq_self]
  intro c hc
  simpa using h c hc

/-- Output shape of `normalize_whatsappL`: a digits-only list or `'+'`
followed by digits only. -/
lemma normalize_whatsappL_shape (l : List Char) :
    (∀ c ∈ normalize_whatsappL l, c.isDigit = true) ∨
      ∃ t, normalize_whatsappL l = '+' :: t ∧ ∀ c ∈ t, c.isDigit = true := by
  unfold normalize_whatsappL
  set s := removeSpacesL (pyStripL l) with hs
  by_cases h : s.head? = some '+'
  · right
    refine ⟨s.tail.filter Char.isDigit, by simp [h], ?_⟩
    intro c hc
    exact (List.mem_filter.mp hc).2
  · left
    intro c hc
    simp only [h, if_false] at hc
    exact (List.mem_filter.mp hc).2

/-- `normalize_whatsappL` fixes any list of its own output shape. -/
lemma normalize_whatsappL_fixes {r : List Char}
    (h : (∀ c ∈ r, c.isDigit = true) ∨
      ∃ t, r = '+' :: t ∧ ∀ c ∈ t, c.isDigit = true) :
    normalize_whatsappL r = r := by
  rcases h with hd | ⟨t, rfl, ht⟩
  · have hstrip : pyStripL r = r :=
      pyStripL_eq_self (fun c hc => char_isDigit_not_ws (hd c hc))
    have hspace : removeSpacesL r = r :=
      removeSpacesL_eq_self (fun c hc => char_isDigit_ne_space (hd c hc))
    unfold normalize_whatsappL
    rw [hstrip, hspace]
    have hhead : r.head? ≠ some '+' := by
      cases r with
      | nil => simp
      | cons c t =>
        simp only [List.head?_cons, ne_eq, Option.some.injEq]
        intro hc
        subst hc
        exact absurd (hd '+' (by simp)) (by decide)
    rw [if_neg hhead]
    rw [List.filter_eq_self]
    intro c hc
    exact hd c hc
  · have hstrip : pyStripL ('+' :: t) = '+' :: t := by
      refine pyStripL_eq_self ?_
      intro c hc
      rcases List.mem_cons.mp hc with rfl | hc
      · exact char_plus_not_ws
      · exact char_isDigit_not_ws (ht c hc)
    have hspace : removeSpacesL ('+' :: t) = '+' :: t := by
      refine removeSpacesL_eq_self ?_
      intro c hc
      rcases List.mem_cons.mp hc with rfl | hc
      · decide
      · exact char_isDigit_ne_space (ht c hc)
    unfold normalize_whatsappL
    rw [hstrip, hspace]
    rw [if_pos (by simp)]
    simp only [List.tail_cons, List.cons.injEq, true_and]
    rw [List.filter_eq_self]
    intro c hc
    exact ht c hc

/-- C10.  `normalize_whatsapp` is idempotent, and its output is either a
digits-only string or `'+'` followed by digits only. -/
theorem normalize_whatsapp_idempotent_and_canonical (s : String) :
    normalize_whatsapp (normalize_whatsapp s) = normalize_whatsapp s ∧
      ((∀ c ∈ (normalize_whatsapp s).toList, c.isDigit = true) ∨
        ∃ t, (normalize_whatsapp s).toList = '+' :: t ∧
          ∀ c ∈ t, c.isDigit = true) := by
  have hshape := normalize_whatsappL_shape s.toList
  have htl : (normalize_whatsapp s).toList = normalize_whatsappL s.toList := rfl
  constructor
  · show (normalize_whatsappL (normalize_whatsapp s).toList).asString
        = normalize_whatsapp s
    rw [htl, normalize_whatsappL_fixes hshape]
    rfl
  · rw [htl]
    exact hshape

/-! ## Migration runner lemmas -/

lemma stepAction_ledger_sm {s : MigStep} {st st' : SchemaState}
    (h : stepAction s st = .ok st') :
    st'.ledger = st.ledger ∧ st'.schema_migrations_tbl = st.schema_migrations_tbl := by
  cases s <;> simp only [stepAction] at h
  · cases h; exact ⟨rfl, rfl⟩
  · cases h; exact ⟨rfl, rfl⟩
  · split at h
    · cases h; exact ⟨rfl, rfl⟩
    · split at h
      · cases h; exact ⟨rfl, rfl⟩
      · cases h
  · cases h; exact ⟨rfl, rfl⟩

lemma runStep_skip {s : MigStep} {st : SchemaState}
    (h : stepVersion s ∈ st.ledger) : runStep s st = .ok st := by
  simp [runStep, h]

lemma runStep_ledger {s : MigStep} {st st' : SchemaState}
    (h : runStep s st = .ok st') :
    (st' = st) ∨
      (stepVersion s ∉ st.ledger ∧ st'.ledger = st.ledger ++ [stepVersion s]) := by
  unfold runStep at h
  split at h
  · cases h; exact .inl rfl
  · right
    refine ⟨by assumption, ?_⟩
    cases ha : stepAction s st with
    | error e => rw [ha] at h; cases h
    | ok st1 =>
      rw [ha] at h
      simp only [Except.map, recordApplied] at h
      cases h
      simp [(stepAction_ledger_sm ha).1]

lemma runStep_sm {s : MigStep} {st st' : SchemaState}
    (h : runStep s st = .ok st') :
    st'.schema_migrations_tbl = st.schema_migrations_tbl := by
  unfold runStep at h
  split at h
  · cases h; rfl
  · cases ha : stepAction s st with
    | error e => rw [ha] at h; cases h
    | ok st1 =>
      rw [ha] at h
      simp only [Except.map, recordApplied] at h
      cases h
      exact (stepAction_ledger_sm ha).2

lemma runStep_ledger_mono {s : MigStep} {st st' : SchemaState}
    (h : runStep s st = .ok st') {v : Nat} (hv : v ∈ st.ledger) :
    v ∈ st'.ledger := by
  rcases runStep_ledger h with rfl | ⟨_, hl⟩
  · exact hv
  · rw [hl]; exact List.mem_append_left _ hv

lemma runStep_version_mem {s : MigStep} {st st' : SchemaState}
    (h : runStep s st = .ok st') :
    stepVersion s ∈ st'.ledger := by
  unfold runStep at h
  split at h
  · cases h; assumption
  · cases ha : stepAction s st with
    | error e => rw [ha] at h; cases h
    | ok st1 =>
      rw [ha] at h
      simp only [Except.map, recordApplied] at h
      cases h
      simp

lemma runSteps_ledger_mono {L : List MigStep} {st st' : SchemaState}
    (h : runSteps L st = .ok st') {v : Nat} (hv : v ∈ st.ledger) :
    v ∈ st'.ledger := by
  induction L generalizing st with
  | nil => cases h; exact hv
  | cons s rest ih =>
    simp only [runSteps] at h
    cases h1 : runStep s st with
    | error e => rw [h1] at h; cases h
    | ok st1 =>
      rw [h1] at h
      exact ih h (runStep_ledger_mono h1 hv)

lemma runSteps_sm {L : List MigStep} {st st' : SchemaState}
    (h : runSteps L st = .ok st') :
    st'.schema_migrations_tbl = st.schema_migrations_tbl := by
  induction L generalizing st with
  | nil => cases h; rfl
  | cons s rest ih =>
    simp only [runSteps] at h
    cases h1 : runStep s st with
    | error e => rw [h1] at h; cases h
    | ok st1 =>
      rw [h1] at h
      rw [ih h, runStep_sm h1]

lemma runSteps_versions_mem {L : List MigStep} {st st' : SchemaState}
    (h : runSteps L st = .ok st') :
    ∀ s ∈ L, stepVersion s ∈ st'.ledger := by
  induction L generalizing st with
  | nil => intro s hs; cases hs
  | cons s0 rest ih =>
    intro s hs
    simp only [runSteps] at h
    cases h1 : runStep s0 st with
    | error e => rw [h1] at h; cases h
    | ok st1 =>
      rw [h1] at h
      rcases List.mem_cons.mp hs with rfl | hs'
      · exact runSteps_ledger_mono h (runStep_version_mem h1)
      · exact ih h s hs'

lemma runStep_nodup {s : MigStep} {st st' : SchemaState}
    (h : runStep s st = .ok st') (hnd : st.ledger.Nodup) : st'.ledger.Nodup := by
  rcases runStep_ledger h with rfl | ⟨hnm, hl⟩
  · exact hnd
  · rw [hl]
    simpa [List.nodup_append] using ⟨hnd, hnm⟩

lemma runSteps_nodup {L : List MigStep} {st st' : SchemaState}
    (h : runSteps L st = .ok st') (hnd : st.ledger.Nodup) : st'.ledger.Nodup := by
  induction L generalizing st with
  | nil => cases h; exact hnd
  | cons s rest ih =>
    simp only [runSteps] at h
    cases h1 : runStep s st with
    | error e => rw [h1] at h; cases h
    | ok st1 =>
      rw [h1] at h
      exact ih h (runStep_nodup h1 hnd)

/-- C3.  A successful `init_db` run is idempotent: running it again from the
resulting state succeeds and changes nothing (same schema, same ledger), and
the ledger stays duplicate-free. -/
theorem init_db_idempotent_no_dup (st st' : SchemaState)
    (hnd : st.ledger.Nodup) (h : init_db st = .ok st') :
    init_db st' = .ok st' ∧ st'.ledger.Nodup := by
  unfold init_db at h
  have hsm : st'.schema_migrations_tbl = true := by
    rw [runSteps_sm h]
    unfold ensureLedgerTable
    split
    · assumption
    · rfl
  have hmem := runSteps_versions_mem h
  have hnd1 : (ensureLedgerTable st).ledger.Nodup := by
    unfold ensureLedgerTable
    split
    · exact hnd
    · exact List.nodup_nil
  refine ⟨?_, runSteps_nodup h hnd1⟩
  have hens : ensureLedgerTable st' = st' := by
    unfold ensureLedgerTable
    rw [if_pos hsm]
  have h1 : runStep MigStep.v1 st' = .ok st' :=
    runStep_skip (hmem .v1 (by simp [migrationSteps]))
  have h2 : runStep MigStep.v2 st' = .ok st' :=
    runStep_skip (hmem .v2 (by simp [migrationSteps]))
  have h3 : runStep MigStep.v3 st' = .ok st' :=
    runStep_skip (hmem .v3 (by simp [migrationSteps]))
  have h4 : runStep MigStep.v4 st' = .ok st' :=
    runStep_skip (hmem .v4 (by simp [migrationSteps]))
  unfold init_db migrationSteps
  rw [hens]
  simp [runSteps, Except.bind, h1, h2, h3, h4]

/-- Witness for C3: a concrete run from the fresh database, then again from
its result. -/
theorem init_db_idempotent_no_dup_witness :
    init_db ⟨true, [1, 2, 3, 4], true, true, true, true, true, true, true⟩
      = .ok ⟨true, [1, 2, 3, 4], true, true, true, true, true, true, true⟩ :=
  (init_db_idempotent_no_dup SchemaState.fresh
    ⟨true, [1, 2, 3, 4], true, true, true, true, true, true, true⟩
    (by decide) (by rfl)).1

/-- Counterexample for C4: the runner does not sort its steps; applying the
same four steps with step 3 moved first (a permutation of the shipped list)
fails where the shipped order succeeds, so a shuffled input order does not
yield the same final schema and ledger. -/
theorem migration_shuffle_counterexample :
    ([MigStep.v3, MigStep.v1, MigStep.v2, MigStep.v4]).Perm migrationSteps ∧
    runSteps [MigStep.v3, MigStep.v1, MigStep.v2, MigStep.v4]
        (ensureLedgerTable SchemaState.fresh)
      ≠ runSteps migrationSteps (ensureLedgerTable SchemaState.fresh) := by
  constructor
  · decide
  · have hL : runSteps [MigStep.v3, MigStep.v1, MigStep.v2, MigStep.v4]
        (ensureLedgerTable SchemaState.fresh)
        = .error (.operationalError "no such table: products") := rfl
    have hR : runSteps migrationSteps (ensureLedgerTable SchemaState.fresh)
        = .ok ⟨true, [1, 2, 3, 4], true, true, true, true, true, true, true⟩ := rfl
    rw [hL, hR]
    exact fun h => Except.noConfusion h

/-- C4 (amended).  `init_db` runs the steps in the fixed order written in
the source, whose versions are the strictly ascending list `[1, 2, 3, 4]`;
a step whose version is in the ledger is skipped, and an unapplied step is
executed and then recorded (and committed) before the next step begins.
The runner does not sort a shuffled input list. -/
theorem migration_fixed_ascending_order (s : MigStep) (st : SchemaState) :
    migrationSteps.map stepVersion = [1, 2, 3, 4] ∧
    List.Pairwise (· < ·) (migrationSteps.map stepVersion) ∧
    init_db st = runSteps migrationSteps (ensureLedgerTable st) ∧
    (stepVersion s ∈ st.ledger → runStep s st = .ok st) ∧
    (stepVersion s ∉ st.ledger →
      runStep s st = (stepAction s st).map (recordApplied (stepVersion s))) := by
  refine ⟨rfl, by decide, rfl, fun h => runStep_skip h, fun h => ?_⟩
  simp [runStep, h]

/-- Witness for C4 (amended), at step v1 on the fresh database. -/
theorem migration_fixed_ascending_order_witness :
    runStep MigStep.v1 SchemaState.fresh
      = (stepAction MigStep.v1 SchemaState.fresh).map (recordApplied 1) :=
  (migration_fixed_ascending_order MigStep.v1 SchemaState.fresh).2.2.2.2
    (by decide)

/-! ## Image intake lemmas -/

/-- The decoded formats `_sniff_and_get_ext` accepts. -/
def fmtAllowed (o : Option PILFormat) : Bool :=
  o == some .JPEG || o == some .PNG || o == some .WEBP

lemma sniff_err {decode : List Nat → Option PILFormat} {f : FileUpload}
    (h : fmtAllowed (decode f.bytes) = false) :
    sniff_and_get_ext decode f = .error (.valueError "Unsupported image format") := by
  unfold sniff_and_get_ext
  cases ho : decode f.bytes with
  | none => rfl
  | some fmt =>
    rw [ho] at h
    cases fmt <;> simp_all [fmtAllowed]

lemma sniff_ok {decode : List Nat → Option PILFormat} {f : FileUpload}
    (h : fmtAllowed (decode f.bytes) = true) :
    ∃ ext, sniff_and_get_ext decode f = .ok ext ∧ ext ∈ ALLOWED_IMAGE_EXTS := by
  unfold sniff_and_get_ext
  cases ho : decode f.bytes with
  | none => rw [ho] at h; simp [fmtAllowed] at h
  | some fmt =>
    rw [ho] at h
    cases fmt <;> simp_all [fmtAllowed, ALLOWED_IMAGE_EXTS]

/-- Sniffing consults only the decoded bytes, never the caller-supplied
filename or content type. -/
lemma sniff_content_only (decode : List Nat → Option PILFormat)
    {f g : FileUpload} (h : g.bytes = f.bytes) :
    sniff_and_get_ext decode g = sniff_and_get_ext decode f := by
  unfold sniff_and_get_ext
  rw [h]

lemma string_append_right_injective (ext : String) :
    Function.Injective (fun s : String => s ++ ext) := by
  intro a b h
  apply String.ext
  have hd := congrArg String.data h
  simp only [String.data_append] at hd
  exact (List.append_left_inj ext.data).mp hd

/-- Pigeonhole for the collision loop: with an injective candidate stream,
one of the first `files.length + 1` candidates is fresh, so the search
succeeds. -/
lemma pickFresh_isSome {gen : Nat → String} (hinj : Function.Injective gen)
    (ext : String) (files : List String) :
    ∃ fn, pickFresh gen ext files = some fn := by
  unfold pickFresh
  set F : Nat → String := fun i => gen i ++ ext with hF
  have hFinj : Function.Injective F := by
    intro a b hab
    exact hinj (string_append_right_injective ext hab)
  by_contra hnone
  push_neg at hnone
  have hnone' : ((List.range (files.length + 1)).map F).find?
      (fun n => decide (n ∉ files)) = none := by
    cases hfind : ((List.range (files.length + 1)).map F).find?
        (fun n => decide (n ∉ files)) with
    | none => rfl
    | some fn => exact absurd hfind (hnone fn)
  rw [List.find?_eq_none] at hnone'
  have hmem : ∀ x ∈ (List.range (files.length + 1)).map F, x ∈ files := by
    intro x hx
    have := hnone' x hx
    simpa using this
  have hnd : ((List.range (files.length + 1)).map F).Nodup :=
    (List.nodup_range _).map hFinj
  have hsub : ((List.range (files.length + 1)).map F).toFinset ⊆ files.toFinset := by
    intro x hx
    rw [List.mem_toFinset] at hx ⊢
    exact hmem x hx
  have hcard := Finset.card_le_card hsub
  rw [List.toFinset_card_of_nodup hnd] at hcard
  have hlen : ((List.range (files.length + 1)).map F).length = files.length + 1 := by
    simp
  rw [hlen] at hcard
  have := le_trans hcard (List.toFinset_card_le files)
  omega

/-- `find?` over `F 0, F 1, ..., F (m-1)`: a hit is the first index whose
image satisfies the predicate. -/
lemma find?_map_range_spec {α : Type} {p : α → Bool} :
    ∀ {m : Nat} {F : Nat → α} {fn : α},
      ((List.range m).map F).find? p = some fn →
      ∃ i, i < m ∧ fn = F i ∧ p fn = true ∧ ∀ j < i, p (F j) = false := by
  intro m
  induction m with
  | zero => intro F fn h; simp at h
  | succ n ih =>
    intro F fn h
    rw [List.range_succ_eq_map, List.map_cons, List.map_map] at h
    rw [List.find?_cons] at h
    cases hp0 : p (F 0) with
    | true =>
      rw [hp0] at h
      simp only [cond_true, Option.some.injEq] at h
      subst h
      exact ⟨0, Nat.succ_pos n, rfl, hp0, fun j hj => absurd hj (Nat.not_lt_zero j)⟩
    | false =>
      rw [hp0] at h
      simp only [cond_false] at h
      obtain ⟨i, hi, hfn, hpfn, hprev⟩ := ih (F := F ∘ Nat.succ) h
      refine ⟨i + 1, Nat.succ_lt_succ hi, hfn, hpfn, ?_⟩
      intro j hj
      cases j with
      | zero => exact hp0
      | succ k => exact hprev k (Nat.lt_of_succ_lt_succ hj)

/-- A found candidate is fresh and is the first fresh draw: every earlier
candidate collided with an existing file. -/
lemma pickFresh_spec {gen : Nat → String} {ext : String} {files : List String}
    {fn : String} (h : pickFresh gen ext files = some fn) :
    fn ∉ files ∧
      ∃ i, i < files.length + 1 ∧ fn = gen i ++ ext ∧
        ∀ j < i, gen j ++ ext ∈ files := by
  unfold pickFresh at h
  obtain ⟨i, hi, hfn, hpfn, hprev⟩ := find?_map_range_spec h
  have hfresh : fn ∉ files := by simpa using hpfn
  refine ⟨hfresh, i, hi, hfn, ?_⟩
  intro j hj
  have := hprev j hj
  simpa using this

/-- Successful save: sniff succeeded, the name is fresh, the write appends
exactly that one file. -/
lemma save_ok {decode : List Nat → Option PILFormat} {gen : Nat → String}
    {files : List String} {f : FileUpload} {fn : String} {files' : List String}
    (h : save_upload_image decode gen files f = (.ok fn, files')) :
    fn ∉ files ∧ files' = files ++ [fn] ∧
      fmtAllowed (decode f.bytes) = true ∧
      ∃ ext i, i < files.length + 1 ∧ fn = gen i ++ ext ∧
        ∀ j < i, gen j ++ ext ∈ files := by
  cases hs : sniff_and_get_ext decode f with
  | error e =>
    simp only [save_upload_image, hs] at h
    cases h
  | ok ext =>
    have hfmt : fmtAllowed (decode f.bytes) = true := by
      by_contra hc
      rw [sniff_err (Bool.eq_false_iff.mpr hc)] at hs
      cases hs
    simp only [save_upload_image, hs] at h
    split at h
    · cases hp : pickFresh gen ext files with
      | none =>
        simp only [hp] at h
        cases h
      | some fn0 =>
        simp only [hp, Prod.mk.injEq, Except.ok.injEq] at h
        obtain ⟨rfl, rfl⟩ := h
        obtain ⟨h1, i, h2, h3, h4⟩ := pickFresh_spec hp
        exact ⟨h1, rfl, hfmt, ext, i, h2, h3, h4⟩
    · cases h

/-- Save under an allowed format and injective name stream always succeeds. -/
lemma save_ok_of_allowed {decode : List Nat → Option PILFormat} {gen : Nat → String}
    (hinj : Function.Injective gen) (files : List String) (f : FileUpload)
    (hfmt : fmtAllowed (decode f.bytes) = true) :
    ∃ fn, save_upload_image decode gen files f = (.ok fn, files ++ [fn]) ∧
      fn ∉ files := by
  obtain ⟨ext, hs, hext⟩ := sniff_ok hfmt
  obtain ⟨fn, hp⟩ := pickFresh_isSome hinj ext files
  refine ⟨fn, ?_, (pickFresh_spec hp).1⟩
  simp only [save_upload_image, hs, if_pos hext, hp]

/-- Save of a disallowed upload: same rejection, nothing written. -/
lemma save_err (decode : List Nat → Option PILFormat) (gen : Nat → String)
    (files : List String) (f : FileUpload)
    (h : fmtAllowed (decode f.bytes) = false) :
    save_upload_image decode gen files f
      = (.error (.valueError "Unsupported image format"), files) := by
  unfold save_upload_image
  rw [sniff_err h]

/-- C2.  Content whose bytes do not decode as JPEG/PNG/WEBP is rejected by
`save_upload_image` with the unsupported-format error and nothing is
written, regardless of the caller-supplied filename or declared content
type; and a successful save implies the content did decode as an allowed
format (content is written only after validation succeeds). -/
theorem image_intake_sniffs_and_rejects (decode : List Nat → Option PILFormat)
    (gen : Nat → String) (files : List String) (f : FileUpload)
    (h : fmtAllowed (decode f.bytes) = false) :
    save_upload_image decode gen files f
        = (.error (.valueError "Unsupported image format"), files) ∧
      (∀ g : FileUpload, g.bytes = f.bytes →
        save_upload_image decode gen files g
          = (.error (.valueError "Unsupported image format"), files)) ∧
      (∀ (g : FileUpload) (fn : String) (files' : List String),
        save_upload_image decode gen files g = (.ok fn, files') →
        fmtAllowed (decode g.bytes) = true) := by
  refine ⟨save_err decode gen files f h, fun g hg => ?_, fun g fn files' hsave => ?_⟩
  · have : fmtAllowed (decode g.bytes) = false := by rw [hg]; exact h
    exact save_err decode gen files g this
  · exact (save_ok hsave).2.2.1

/-- Witness for C2: a `.jpg`-named upload whose bytes decode as no image is
rejected and the upload directory is untouched. -/
theorem image_intake_sniffs_and_rejects_witness :
    save_upload_image (fun _ => none) (fun _ => "u") ["a.png"]
        ⟨"cat.jpg", "image/jpeg", [0, 1]⟩
      = (.error (.valueError "Unsupported image format"), ["a.png"]) :=
  (image_intake_sniffs_and_rejects (fun _ => none) (fun _ => "u") ["a.png"]
    ⟨"cat.jpg", "image/jpeg", [0, 1]⟩ (by decide)).1

/-- C9.  A successful `save_upload_image` returns a filename that named no
existing file at the moment of writing: the name is the first candidate of
the retry loop that passes the collision re-check, every earlier candidate
having collided, and the write adds exactly that new file (no existing file
is overwritten). -/
theorem stored_filename_never_collides (decode : List Nat → Option PILFormat)
    (gen : Nat → String) (files : List String) (f : FileUpload) (fn : String)
    (files' : List String)
    (h : save_upload_image decode gen files f = (.ok fn, files')) :
    fn ∉ files ∧ files' = files ++ [fn] ∧
      ∃ ext i, i < files.length + 1 ∧ fn = gen i ++ ext ∧
        ∀ j < i, gen j ++ ext ∈ files :=
  ⟨(save_ok h).1, (save_ok h).2.1, (save_ok h).2.2.2⟩

/-- Witness for C9: a PNG upload whose first generated candidate collides
with an existing file; the loop retries and stores the second candidate. -/
theorem stored_filename_never_collides_witness :
    "u1.png" ∉ ["u0.png"] ∧
      ["u0.png", "u1.png"] = ["u0.png"] ++ ["u1.png"] ∧
      ∃ ext i, i < (["u0.png"] : List String).length + 1 ∧
        "u1.png" = (fun n => "u" ++ toString n) i ++ ext ∧
        ∀ j < i, (fun n => "u" ++ toString n) j ++ ext ∈ (["u0.png"] : List String) :=
  stored_filename_never_collides (fun _ => some .PNG) (fun n => "u" ++ toString n)
    ["u0.png"] ⟨"p.png", "image/png", [2]⟩ "u1.png" ["u0.png", "u1.png"] (by rfl)

/-! ## Upload-loop lemmas -/

/-- A failed save writes nothing. -/
lemma save_error_files {decode : List Nat → Option PILFormat} {gen : Nat → String}
    {files : List String} {f : FileUpload} {e : PyError} {files' : List String}
    (h : save_upload_image decode gen files f = (.error e, files')) :
    files' = files := by
  cases hs : sniff_and_get_ext decode f with
  | error e2 =>
    simp only [save_upload_image, hs] at h
    cases h
    rfl
  | ok ext =>
    simp only [save_upload_image, hs] at h
    split at h
    · cases hp : pickFresh gen ext files with
      | none =>
        simp only [hp] at h
        cases h
        rfl
      | some fn =>
        simp only [hp] at h
        cases h
    · cases h
      rfl

/-- Master characterization of the image loop: it never touches sellers,
products or sessions; it appends exactly the saved files (all fresh) and
exactly the corresponding `product_images` rows carrying the call's product
id, consecutive row ids, and — when it completes without error — the
enumerate indices of the kept uploads as `sort_order`. -/
lemma uploadLoop_spec (decode : List Nat → Option PILFormat)
    (gen : Nat → Nat → String) (pid : Nat) (now : String) :
    ∀ (pairs : List (Nat × FileUpload)) (st : St) (saved : List String)
      (st' : St) (saved' : List String) (err : Option PyError),
      uploadLoop decode gen pid now pairs st saved = (st', saved', err) →
      ∃ new rows,
        st'.sellers = st.sellers ∧
        st'.products = st.products ∧
        st'.sessions = st.sessions ∧
        st'.nextSellerId = st.nextSellerId ∧
        st'.nextProductId = st.nextProductId ∧
        saved' = saved ++ new ∧
        st'.files = st.files ++ new ∧
        (∀ x ∈ new, x ∉ st.files) ∧
        st'.images = st.images ++ rows ∧
        rows.map (fun ir => ir.filename) = new ∧
        (∀ ir ∈ rows, ir.product_id = pid) ∧
        rows.map (fun ir => ir.id) = List.range' st.nextImageId rows.length ∧
        st'.nextImageId = st.nextImageId + rows.length ∧
        (err = none →
          rows.map (fun ir => ir.sort_order)
            = (pairs.filter (fun q => decide (q.2.filename ≠ ""))).map
                (fun q => q.1)) := by
  intro pairs
  induction pairs with
  | nil =>
    intro st saved st' saved' err h
    simp only [uploadLoop] at h
    cases h
    exact ⟨[], [], rfl, rfl, rfl, rfl, rfl, by simp, by simp, by simp, by simp,
      rfl, by simp, by simp, by simp, fun _ => by simp⟩
  | cons q rest ih =>
    obtain ⟨i, f⟩ := q
    intro st saved st' saved' err h
    by_cases hf : f.filename = ""
    · rw [show uploadLoop decode gen pid now ((i, f) :: rest) st saved
          = uploadLoop decode gen pid now rest st saved from by
        simp [uploadLoop, hf]] at h
      obtain ⟨new, rows, h1, h2, h3, h4, h5, h6, h7, h8, h9, h10, h11, h12,
        h13, h14⟩ := ih st saved st' saved' err h
      refine ⟨new, rows, h1, h2, h3, h4, h5, h6, h7, h8, h9, h10, h11, h12,
        h13, ?_⟩
      intro hnone
      rw [h14 hnone, List.filter_cons_of_neg (by simp [hf])]
    · cases hsv : save_upload_image decode (gen i) st.files f with
      | mk res files2 =>
        cases res with
        | error e =>
          have hrw : uploadLoop decode gen pid now ((i, f) :: rest) st saved
              = ({ st with files := files2 }, saved, some e) := by
            simp only [uploadLoop, if_neg hf, hsv]
          rw [hrw] at h
          cases h
          have hfe : files2 = st.files := save_error_files hsv
          refine ⟨[], [], rfl, rfl, rfl, rfl, rfl, by simp, by simp [hfe],
            by simp, by simp, rfl, by simp, by simp, by simp, ?_⟩
          intro hnone
          exact absurd hnone (by simp)
        | ok fn =>
          obtain ⟨hfresh1, hfiles2, hfmt, -⟩ := save_ok hsv
          have hrw : uploadLoop decode gen pid now ((i, f) :: rest) st saved
              = uploadLoop decode gen pid now rest
                  { st with files := files2
                            images := st.images ++
                              [⟨st.nextImageId, pid, fn, i, now⟩]
                            nextImageId := st.nextImageId + 1 }
                  (saved ++ [fn]) := by
            simp only [uploadLoop, if_neg hf, hsv]
          rw [hrw] at h
          obtain ⟨new2, rows2, h1, h2, h3, h4, h5, h6, h7, h8, h9, h10, h11,
            h12, h13, h14⟩ := ih _ _ _ _ _ h
          refine ⟨fn :: new2, ⟨st.nextImageId, pid, fn, i, now⟩ :: rows2,
            h1, h2, h3, h4, h5, ?_, ?_, ?_, ?_, ?_, ?_, ?_, ?_, ?_⟩
          · rw [h6]; simp
          · rw [h7]
            show files2 ++ new2 = st.files ++ fn :: new2
            rw [hfiles2]; simp
          · intro x hx
            rcases List.mem_cons.mp hx with rfl | hx2
            · exact hfresh1
            · intro hc
              exact h8 x hx2 (by
                show x ∈ files2
                rw [hfiles2]
                exact List.mem_append_left _ hc)
          · rw [h9]
            show st.images ++ [⟨st.nextImageId, pid, fn, i, now⟩] ++ rows2
              = st.images ++ ⟨st.nextImageId, pid, fn, i, now⟩ :: rows2
            simp
          · simp [h10]
          · intro ir hir
            rcases List.mem_cons.mp hir with rfl | hir2
            · rfl
            · exact h11 ir hir2
          · rw [List.map_cons, List.length_cons, List.range'_succ]
            exact congrArg _ h12
          · show st'.nextImageId = st.nextImageId + (rows2.length + 1)
            have : st'.nextImageId = st.nextImageId + 1 + rows2.length := h13
            omega
          · intro hnone
            rw [List.filter_cons_of_pos (by simp [hf]), List.map_cons,
              List.map_cons, h14 hnone]

/-- With an injective name stream and all kept uploads decodable as allowed
formats, the loop completes without error. -/
lemma uploadLoop_none_of_allowed {decode : List Nat → Option PILFormat}
    {gen : Nat → Nat → String} (hinj : ∀ i, Function.Injective (gen i))
    {pid : Nat} {now : String} :
    ∀ (pairs : List (Nat × FileUpload)) (st : St) (saved : List String)
      (st' : St) (saved' : List String) (err : Option PyError),
      uploadLoop decode gen pid now pairs st saved = (st', saved', err) →
      (∀ q ∈ pairs, q.2.filename ≠ "" → fmtAllowed (decode q.2.bytes) = true) →
      err = none := by
  intro pairs
  induction pairs with
  | nil =>
    intro st saved st' saved' err h _
    simp only [uploadLoop] at h
    cases h
    rfl
  | cons q rest ih =>
    obtain ⟨i, f⟩ := q
    intro st saved st' saved' err h hok
    by_cases hf : f.filename = ""
    · rw [show uploadLoop decode gen pid now ((i, f) :: rest) st saved
          = uploadLoop decode gen pid now rest st saved from by
        simp [uploadLoop, hf]] at h
      exact ih st saved st' saved' err h
        (fun q hq => hok q (List.mem_cons_of_mem _ hq))
    · have hfmt : fmtAllowed (decode f.bytes) = true :=
        hok (i, f) (List.mem_cons_self _ _) hf
      obtain ⟨fn, hsv, -⟩ := save_ok_of_allowed (hinj i) st.files f hfmt
      rw [show uploadLoop decode gen pid now ((i, f) :: rest) st saved
          = uploadLoop decode gen pid now rest
              { st with files := st.files ++ [fn]
                        images := st.images ++
                          [⟨st.nextImageId, pid, fn, i, now⟩]
                        nextImageId := st.nextImageId + 1 }
              (saved ++ [fn]) from by
        simp only [uploadLoop, if_neg hf, hsv]] at h
      exact ih _ _ _ _ _ h (fun q hq => hok q (List.mem_cons_of_mem _ hq))

/-- With an injective name stream, a kept upload that fails the format
sniff makes the loop abort with the catchable unsupported-format error. -/
lemma uploadLoop_err_of_bad {decode : List Nat → Option PILFormat}
    {gen : Nat → Nat → String} (hinj : ∀ i, Function.Injective (gen i))
    {pid : Nat} {now : String} :
    ∀ (pairs : List (Nat × FileUpload)) (st : St) (saved : List String)
      (st' : St) (saved' : List String) (err : Option PyError),
      uploadLoop decode gen pid now pairs st saved = (st', saved', err) →
      (∃ q ∈ pairs, q.2.filename ≠ "" ∧ fmtAllowed (decode q.2.bytes) = false) →
      err = some (.valueError "Unsupported image format") := by
  intro pairs
  induction pairs with
  | nil =>
    intro st saved st' saved' err _ hbad
    obtain ⟨q, hq, -⟩ := hbad
    cases hq
  | cons q rest ih =>
    obtain ⟨i, f⟩ := q
    intro st saved st' saved' err h hbad
    by_cases hf : f.filename = ""
    · rw [show uploadLoop decode gen pid now ((i, f) :: rest) st saved
          = uploadLoop decode gen pid now rest st saved from by
        simp [uploadLoop, hf]] at h
      refine ih st saved st' saved' err h ?_
      obtain ⟨q, hq, hqf, hqb⟩ := hbad
      rcases List.mem_cons.mp hq with rfl | hq2
      · exact absurd hf hqf
      · exact ⟨q, hq2, hqf, hqb⟩
    · by_cases hfmt : fmtAllowed (decode f.bytes) = true
      · obtain ⟨fn, hsv, -⟩ := save_ok_of_allowed (hinj i) st.files f hfmt
        rw [show uploadLoop decode gen pid now ((i, f) :: rest) st saved
            = uploadLoop decode gen pid now rest
                { st with files := st.files ++ [fn]
                          images := st.images ++
                            [⟨st.nextImageId, pid, fn, i, now⟩]
                          nextImageId := st.nextImageId + 1 }
                (saved ++ [fn]) from by
          simp only [uploadLoop, if_neg hf, hsv]] at h
        refine ih _ _ _ _ _ h ?_
        obtain ⟨q, hq, hqf, hqb⟩ := hbad
        rcases List.mem_cons.mp hq with rfl | hq2
        · rw [hfmt] at hqb; cases hqb
        · exact ⟨q, hq2, hqf, hqb⟩
      · have hsv := save_err decode (gen i) st.files f
          (Bool.not_eq_true _ ▸ hfmt)
        rw [show uploadLoop decode gen pid now ((i, f) :: rest) st saved
            = ({ st with files := st.files }, saved,
                some (.valueError "Unsupported image format")) from by
          simp only [uploadLoop, if_neg hf, hsv]] at h
        cases h
        rfl

/-! ## Product creation theorems -/

/-- With valid input and a clean image loop, `create_product` succeeds with
the loop's final state. -/
lemma create_product_ok_case {decode : List Nat → Option PILFormat}
    {gen : Nat → Nat → String} {now : String} {s : Nat}
    {name_in details_in : String} {q : ℚ} {files_in : List FileUpload}
    {st st2 : St} {saved : List String}
    (hname : pyStrip name_in ≠ "") (hq : ¬ q < 0)
    (hdetails : pyStrip details_in ≠ "") (hcount : ¬ files_in.length > 5)
    (hloop : uploadLoop decode gen st.nextProductId now files_in.enum
        { st with
            products := st.products ++
              [⟨st.nextProductId, pyStrip name_in, q, pyStrip details_in,
                now, some s⟩]
            nextProductId := st.nextProductId + 1 } [] = (st2, saved, none)) :
    create_product decode gen now (some s) name_in details_in (some q)
        files_in st
      = (st2, .ok (⟨st.nextProductId, pyStrip name_in, q,
          pyStrip details_in, now, some s⟩, saved)) := by
  simp only [create_product, Option.getD_some]
  split
  · next hcond => exact absurd hcond (by simp [hname, hdetails, hq])
  · rw [hloop]

/-- With valid input and an image-loop `ValueError`, `create_product`
returns the compensation state and the 400 error. -/
lemma create_product_err_case {decode : List Nat → Option PILFormat}
    {gen : Nat → Nat → String} {now : String} {s : Nat}
    {name_in details_in : String} {q : ℚ} {files_in : List FileUpload}
    {st st2 : St} {saved : List String} {msg : String}
    (hname : pyStrip name_in ≠ "") (hq : ¬ q < 0)
    (hdetails : pyStrip details_in ≠ "") (hcount : ¬ files_in.length > 5)
    (hloop : uploadLoop decode gen st.nextProductId now files_in.enum
        { st with
            products := st.products ++
              [⟨st.nextProductId, pyStrip name_in, q, pyStrip details_in,
                now, some s⟩]
            nextProductId := st.nextProductId + 1 } []
      = (st2, saved, some (.valueError msg))) :
    create_product decode gen now (some s) name_in details_in (some q)
        files_in st
      = ({ st2 with
            products := st2.products.filter
              (fun p => p.id ≠ st.nextProductId)
            images := st2.images.filter
              (fun ir => ir.product_id ≠ st.nextProductId)
            files := st2.files.filter (fun fn => fn ∉ saved) },
         .error (.badRequest msg)) := by
  simp only [create_product, Option.getD_some]
  split
  · next hcond => exact absurd hcond (by simp [hname, hdetails, hq])
  · rw [hloop]

/-- C8.  A logged-in `create_product` call with malformed input (empty name
or details after stripping, missing or negative price, or more than five
uploads) returns a 400 validation failure and performs no writes at all:
the store state is returned unchanged. -/
theorem create_product_invalid_input_no_writes
    (decode : List Nat → Option PILFormat) (gen : Nat → Nat → String)
    (now : String) (s : Nat) (name_in details_in : String)
    (price : Option ℚ) (files_in : List FileUpload) (st : St)
    (hbad : pyStrip name_in = "" ∨ price = none ∨
      (∃ q, price = some q ∧ q < 0) ∨ pyStrip details_in = "" ∨
      5 < files_in.length) :
    ∃ msg, create_product decode gen now (some s) name_in details_in price
        files_in st
      = (st, .error (.badRequest msg)) := by
  by_cases hc1 : (pyStrip name_in = "" || price.isNone
      || decide (price.getD 0 < 0) || pyStrip details_in = "") = true
  · refine ⟨"Invalid input", ?_⟩
    simp only [create_product]
    rw [if_pos hc1]
  · have hcount : 5 < files_in.length := by
      rcases hbad with h | h | ⟨q, hq, hlt⟩ | h | h
      · exact absurd (by simp [h]) hc1
      · exact absurd (by simp [h]) hc1
      · exact absurd (by simp [hq, hlt]) hc1
      · exact absurd (by simp [h]) hc1
      · exact h
    refine ⟨"Max 5 images allowed", ?_⟩
    simp only [create_product]
    rw [if_neg hc1, if_pos hcount]

/-- Witness for C8: empty name, nothing written. -/
theorem create_product_invalid_input_no_writes_witness :
    ∃ msg, create_product (fun _ => some PILFormat.JPEG) (fun _ _ => "u") "t"
        (some 1) "" "details" (some 5) [] St.empty
      = (St.empty, .error (.badRequest msg)) :=
  create_product_invalid_input_no_writes (fun _ => some PILFormat.JPEG)
    (fun _ _ => "u") "t" 1 "" "details" (some 5) [] St.empty
    (Or.inl (by decide))

/-- C1.  When a kept upload fails format validation, `create_product`
returns the 400 failure and the compensation path removes everything this
call wrote: the resulting products, image rows and stored files are exactly
the ones from before the call. -/
theorem create_product_rollback_on_image_failure
    (decode : List Nat → Option PILFormat) (gen : Nat → Nat → String)
    (now : String) (s : Nat) (name_in details_in : String) (q : ℚ)
    (files_in : List FileUpload) (st : St)
    (hwf : StWF st)
    (hinj : ∀ i, Function.Injective (gen i))
    (hname : pyStrip name_in ≠ "") (hq : ¬ q < 0)
    (hdetails : pyStrip details_in ≠ "") (hcount : ¬ files_in.length > 5)
    (hbad : ∃ p ∈ files_in.enum, p.2.filename ≠ "" ∧
      fmtAllowed (decode p.2.bytes) = false) :
    (create_product decode gen now (some s) name_in details_in (some q)
        files_in st).2
      = .error (.badRequest "Unsupported image format") ∧
    (create_product decode gen now (some s) name_in details_in (some q)
        files_in st).1.products = st.products ∧
    (create_product decode gen now (some s) name_in details_in (some q)
        files_in st).1.images = st.images ∧
    (create_product decode gen now (some s) name_in details_in (some q)
        files_in st).1.files = st.files ∧
    (create_product decode gen now (some s) name_in details_in (some q)
        files_in st).1.sellers = st.sellers := by
  obtain ⟨hwf1, hwf2, hwf3⟩ := hwf
  rcases hloop : uploadLoop decode gen st.nextProductId now files_in.enum
      { st with
          products := st.products ++
            [⟨st.nextProductId, pyStrip name_in, q, pyStrip details_in,
              now, some s⟩]
          nextProductId := st.nextProductId + 1 } []
    with ⟨st2, saved, err⟩
  have herr : err = some (.valueError "Unsupported image format") :=
    uploadLoop_err_of_bad hinj files_in.enum _ [] st2 saved err hloop hbad
  subst herr
  rw [create_product_err_case hname hq hdetails hcount hloop]
  obtain ⟨new, rows, hsel, hprod, hsess, -, -, hsaved, hfiles, hfresh, himg,
    hfn, hpidr, -, -, -⟩ :=
    uploadLoop_spec decode gen st.nextProductId now files_in.enum _ [] st2
      saved _ hloop
  refine ⟨rfl, ?_, ?_, ?_, hsel⟩
  · show st2.products.filter (fun p => decide (p.id ≠ st.nextProductId))
      = st.products
    rw [hprod]
    show (st.products ++
        [(⟨st.nextProductId, pyStrip name_in, q, pyStrip details_in, now,
          some s⟩ : ProductRow)]).filter (fun p => decide (p.id ≠ st.nextProductId))
      = st.products
    rw [List.filter_append]
    have h1 : st.products.filter (fun p => decide (p.id ≠ st.nextProductId))
        = st.products := by
      rw [List.filter_eq_self]
      intro p hp
      have := hwf2 p hp
      simp only [decide_eq_true_eq]
      omega
    have h2 : ([(⟨st.nextProductId, pyStrip name_in, q, pyStrip details_in,
        now, some s⟩ : ProductRow)]).filter
          (fun p => decide (p.id ≠ st.nextProductId)) = [] := by
      simp
    rw [h1, h2, List.append_nil]
  · show st2.images.filter (fun ir => decide (ir.product_id ≠ st.nextProductId))
      = st.images
    rw [himg]
    show (st.images ++ rows).filter
        (fun ir => decide (ir.product_id ≠ st.nextProductId)) = st.images
    rw [List.filter_append]
    have h1 : st.images.filter
        (fun ir => decide (ir.product_id ≠ st.nextProductId)) = st.images := by
      rw [List.filter_eq_self]
      intro ir hir
      have := (hwf3 ir hir).2
      simp only [decide_eq_true_eq]
      omega
    have h2 : rows.filter
        (fun ir => decide (ir.product_id ≠ st.nextProductId)) = [] := by
      rw [List.filter_eq_nil_iff]
      intro ir hir
      simp [hpidr ir hir]
    rw [h1, h2, List.append_nil]
  · show st2.files.filter (fun fn => decide (fn ∉ saved)) = st.files
    rw [hfiles]
    have hsv : saved = new := by simpa using hsaved
    subst hsv
    show (st.files ++ saved).filter (fun fn => decide (fn ∉ saved)) = st.files
    rw [List.filter_append]
    have h1 : st.files.filter (fun fn => decide (fn ∉ saved)) = st.files := by
      rw [List.filter_eq_self]
      intro x hx
      simp only [decide_eq_true_eq]
      intro hc
      exact hfresh x hc hx
    have h2 : saved.filter (fun fn => decide (fn ∉ saved)) = [] := by
      rw [List.filter_eq_nil_iff]
      intro x hx
      simp [hx]
    rw [h1, h2, List.append_nil]

/-- Witness for C1: one upload whose bytes decode as no allowed image; the
call fails and the empty store is unchanged. -/
theorem create_product_rollback_on_image_failure_witness :
    (create_product (fun _ => none) (fun _ j => (List.replicate j 'a').asString)
        "t" (some 1) "Lamp" "Brass" (some 5)
        [⟨"cat.jpg", "image/jpeg", [0]⟩] St.empty).2
      = .error (.badRequest "Unsupported image format") ∧
    (create_product (fun _ => none) (fun _ j => (List.replicate j 'a').asString)
        "t" (some 1) "Lamp" "Brass" (some 5)
        [⟨"cat.jpg", "image/jpeg", [0]⟩] St.empty).1.products = St.empty.products ∧
    (create_product (fun _ => none) (fun _ j => (List.replicate j 'a').asString)
        "t" (some 1) "Lamp" "Brass" (some 5)
        [⟨"cat.jpg", "image/jpeg", [0]⟩] St.empty).1.images = St.empty.images ∧
    (create_product (fun _ => none) (fun _ j => (List.replicate j 'a').asString)
        "t" (some 1) "Lamp" "Brass" (some 5)
        [⟨"cat.jpg", "image/jpeg", [0]⟩] St.empty).1.files = St.empty.files ∧
    (create_product (fun _ => none) (fun _ j => (List.replicate j 'a').asString)
        "t" (some 1) "Lamp" "Brass" (some 5)
        [⟨"cat.jpg", "image/jpeg", [0]⟩] St.empty).1.sellers = St.empty.sellers :=
  create_product_rollback_on_image_failure (fun _ => none)
    (fun _ j => (List.replicate j 'a').asString) "t" 1 "Lamp" "Brass" 5
    [⟨"cat.jpg", "image/jpeg", [0]⟩] St.empty
    (by decide)
    (fun _ a b hab => by
      have := congrArg String.length hab
      simpa using this)
    (by decide) (by norm_num) (by decide) (by decide)
    ⟨(0, ⟨"cat.jpg", "image/jpeg", [0]⟩), by decide, by decide, by decide⟩

/-! ## Image ordering (C5) -/

/-- Enumerate indices are strictly increasing. -/
lemma enum_pairwise_fst_lt (l : List FileUpload) :
    l.enum.Pairwise (fun a b => a.1 < b.1) := by
  have h1 : (l.enum.map Prod.fst).Pairwise (· < ·) := by
    rw [List.enum_map_fst]
    exact List.pairwise_lt_range l.length
  rw [List.pairwise_map] at h1
  exact h1

/-- C5.  A successful `create_product` stores one `product_images` row per
kept upload, whose `sort_order` is the upload's position in the input
sequence, and the `list_products` assembly (ordered by
`sort_order ASC, id ASC`) returns that product's images exactly in the
order they were saved — the caller's original order. -/
theorem create_product_preserves_image_order
    (decode : List Nat → Option PILFormat) (gen : Nat → Nat → String)
    (now : String) (s : Nat) (name_in details_in : String) (q : ℚ)
    (files_in : List FileUpload) (st : St)
    (hwf : StWF st)
    (hinj : ∀ i, Function.Injective (gen i))
    (hname : pyStrip name_in ≠ "") (hq : ¬ q < 0)
    (hdetails : pyStrip details_in ≠ "") (hcount : ¬ files_in.length > 5)
    (hallok : ∀ p ∈ files_in.enum, p.2.filename ≠ "" →
      fmtAllowed (decode p.2.bytes) = true) :
    ∃ st2 saved rows,
      create_product decode gen now (some s) name_in details_in (some q)
          files_in st
        = (st2, .ok (⟨st.nextProductId, pyStrip name_in, q,
            pyStrip details_in, now, some s⟩, saved)) ∧
      st2.images = st.images ++ rows ∧
      rows.map (fun ir => ir.sort_order)
        = (files_in.enum.filter (fun p => decide (p.2.filename ≠ ""))).map
            (fun p => p.1) ∧
      rows.map (fun ir => ir.filename) = saved ∧
      imagesFor st2 st.nextProductId = saved := by
  obtain ⟨hwf1, hwf2, hwf3⟩ := hwf
  rcases hloop : uploadLoop decode gen st.nextProductId now files_in.enum
      { st with
          products := st.products ++
            [⟨st.nextProductId, pyStrip name_in, q, pyStrip details_in,
              now, some s⟩]
          nextProductId := st.nextProductId + 1 } []
    with ⟨st2, saved, err⟩
  have herr : err = none :=
    uploadLoop_none_of_allowed hinj files_in.enum _ [] st2 saved err hloop
      hallok
  subst herr
  obtain ⟨new, rows, -, -, -, -, -, hsaved, -, -, himg, hfn, hpidr, -, -,
    hsort⟩ :=
    uploadLoop_spec decode gen st.nextProductId now files_in.enum _ [] st2
      saved _ hloop
  have hsv : saved = new := by simpa using hsaved
  subst hsv
  have hsort' := hsort rfl
  refine ⟨st2, saved, rows,
    create_product_ok_case hname hq hdetails hcount hloop, ?_, hsort', hfn,
    ?_⟩
  · rw [himg]
  · unfold imagesFor
    have hfilter : st2.images.filter
        (fun ir => ir.product_id == st.nextProductId) = rows := by
      rw [himg]
      show (st.images ++ rows).filter
        (fun ir => ir.product_id == st.nextProductId) = rows
      rw [List.filter_append]
      have h1 : st.images.filter
          (fun ir => ir.product_id == st.nextProductId) = [] := by
        rw [List.filter_eq_nil_iff]
        intro ir hir
        have := (hwf3 ir hir).2
        simp only [beq_iff_eq]
        omega
      have h2 : rows.filter (fun ir => ir.product_id == st.nextProductId)
          = rows := by
        rw [List.filter_eq_self]
        intro ir hir
        simp [hpidr ir hir]
      rw [h1, h2, List.nil_append]
    rw [hfilter]
    have hpw : rows.Pairwise (fun a b => imgLe a b = true) := by
      have h1 : (rows.map (fun ir => ir.sort_order)).Pairwise (· < ·) := by
        rw [hsort']
        have h2 : (files_in.enum.filter
            (fun p => decide (p.2.filename ≠ ""))).Pairwise
              (fun a b => a.1 < b.1) :=
          (enum_pairwise_fst_lt files_in).filter _
        rw [List.pairwise_map]
        exact h2
      rw [List.pairwise_map] at h1
      refine h1.imp ?_
      intro a b hlt
      simp [imgLe, hlt]
    rw [List.mergeSort_of_sorted hpw, hfn]

/-- Witness for C5: two JPEG uploads on the empty store; their rows carry
sort orders 0 and 1 and come back in input order. -/
theorem create_product_preserves_image_order_witness :
    ∃ st2 saved rows,
      create_product (fun _ => some PILFormat.JPEG)
          (fun i j => toString i ++ "-" ++ (List.replicate j 'a').asString)
          "t" (some 1) "Lamp" "Brass" (some 5)
          [⟨"a.jpg", "ct", [1]⟩, ⟨"b.jpg", "ct", [2]⟩] St.empty
        = (st2, .ok (⟨St.empty.nextProductId, pyStrip "Lamp", 5,
            pyStrip "Brass", "t", some 1⟩, saved)) ∧
      st2.images = St.empty.images ++ rows ∧
      rows.map (fun ir => ir.sort_order)
        = (([⟨"a.jpg", "ct", [1]⟩, ⟨"b.jpg", "ct", [2]⟩] :
            List FileUpload).enum.filter
              (fun p => decide (p.2.filename ≠ ""))).map (fun p => p.1) ∧
      rows.map (fun ir => ir.filename) = saved ∧
      imagesFor st2 St.empty.nextProductId = saved :=
  create_product_preserves_image_order (fun _ => some PILFormat.JPEG)
    (fun i j => toString i ++ "-" ++ (List.replicate j 'a').asString)
    "t" 1 "Lamp" "Brass" 5 [⟨"a.jpg", "ct", [1]⟩, ⟨"b.jpg", "ct", [2]⟩]
    St.empty (by decide)
    (fun i a b hab => by
      have hd := congrArg String.data hab
      simp only [String.data_append] at hd
      have h2 : List.replicate a 'a' = List.replicate b 'a' :=
        (List.append_right_inj _).mp hd
      have h3 := congrArg List.length h2
      simpa using h3)
    (by decide) (by norm_num) (by decide) (by decide) (by decide)

/-! ## Seller uniqueness (C6) -/

/-- C6.  After a successful registration, a second registration request
whose phone identity normalizes to the same string (and whose other fields
pass validation) fails with the 409 conflict, persists no writes (the state
is returned unchanged), and the first seller's row is still present
unchanged. -/
theorem duplicate_phone_registration_conflict
    (hash : String → String) (now1 now2 n1 w1 p1 n2 w2 p2 : String)
    (st st1 : St) (r1 : SellerRow)
    (h1 : sellers_register hash now1 n1 w1 p1 st = (st1, .ok r1))
    (hw : normalize_whatsapp w2 = normalize_whatsapp w1)
    (hn2 : 2 ≤ (pyStrip n2).length ∧ (pyStrip n2).length ≤ 60)
    (hp2 : pyIsdigit (pyStrip p2) = true ∧ 4 ≤ (pyStrip p2).length ∧
      (pyStrip p2).length ≤ 8) :
    sellers_register hash now2 n2 w2 p2 st1
        = (st1, .error (.conflict "WhatsApp already registered")) ∧
      r1 ∈ st1.sellers := by
  simp only [sellers_register] at h1
  split at h1
  · simp at h1
  · split at h1
    · simp at h1
    · split at h1
      · simp at h1
      · split at h1
        · simp at h1
        · next hc1 hc2 hc3 hc4 =>
          have hst := congrArg Prod.fst h1
          have hr := congrArg Prod.snd h1
          simp only at hst hr
          rw [Except.ok.injEq] at hr
          subst hst
          subst hr
          have hlen1 : ¬ ((normalize_whatsapp w1).length = 0 ∨
              (normalize_whatsapp w1).length < 10) := by
            simpa using hc2
          constructor
          · simp only [sellers_register]
            rw [if_neg (by
              simp only [Bool.or_eq_true, decide_eq_true_eq]
              omega)]
            rw [if_neg (by
              simp only [Bool.or_eq_true, decide_eq_true_eq, hw]
              omega)]
            have hb : (pyIsdigit (pyStrip p2) &&
                decide (4 ≤ (pyStrip p2).length) &&
                decide ((pyStrip p2).length ≤ 8)) = true := by
              simp [hp2.1, hp2.2.1, hp2.2.2]
            rw [if_neg (by simp [hb])]
            rw [if_pos (by
              rw [List.any_append]
              simp [hw])]
          · exact List.mem_append_right _ (by simp)

/-- Witness for C6: two concrete registrations whose numbers normalize to
`+1234567890`; the second yields the conflict and leaves the store as it
was after the first. -/
theorem duplicate_phone_registration_conflict_witness :
    sellers_register (fun p => p) "t2" "Bob" "+12 34567890" "9999"
        { sellers := [⟨1, "Alice", "+1234567890", "1234", "t1"⟩]
          products := [], images := [], files := [], sessions := [1]
          nextSellerId := 2, nextProductId := 1, nextImageId := 1 }
        = ({ sellers := [⟨1, "Alice", "+1234567890", "1234", "t1"⟩]
             products := [], images := [], files := [], sessions := [1]
             nextSellerId := 2, nextProductId := 1, nextImageId := 1 },
           .error (.conflict "WhatsApp already registered")) ∧
      (⟨1, "Alice", "+1234567890", "1234", "t1"⟩ : SellerRow) ∈
        ({ sellers := [⟨1, "Alice", "+1234567890", "1234", "t1"⟩]
           products := [], images := [], files := [], sessions := [1]
           nextSellerId := 2, nextProductId := 1, nextImageId := 1 } : St).sellers :=
  duplicate_phone_registration_conflict (fun p => p) "t1" "t2" "Alice"
    "+1234567890" "1234" "Bob" "+12 34567890" "9999" St.empty
    { sellers := [⟨1, "Alice", "+1234567890", "1234", "t1"⟩]
      products := [], images := [], files := [], sessions := [1]
      nextSellerId := 2, nextProductId := 1, nextImageId := 1 }
    ⟨1, "Alice", "+1234567890", "1234", "t1"⟩
    (by rfl) (by rfl) (by decide) (by decide)

/-! ## The foreign-reference invariant (C7) -/

/-- Every seller id held by a live session belongs to an existing seller
row. -/
def SessionsValid (st : St) : Prop :=
  ∀ i ∈ st.sessions, ∃ s ∈ st.sellers, s.id = i

/-- Every product whose `seller_id` is set references an existing seller
row. -/
def SellerRefsValid (st : St) : Prop :=
  ∀ p ∈ st.products, ∀ i, p.seller_id = some i → ∃ s ∈ st.sellers, s.id = i

lemma sellers_register_cases {hash : String → String} {now n w p : String}
    {st st' : St} {res : Except ApiError SellerRow}
    (h : sellers_register hash now n w p st = (st', res)) :
    st' = st ∨
      ∃ row : SellerRow,
        st' = { st with sellers := st.sellers ++ [row]
                        sessions := st.sessions ++ [row.id]
                        nextSellerId := st.nextSellerId + 1 } := by
  simp only [sellers_register] at h
  split at h
  · cases h; exact .inl rfl
  · split at h
    · cases h; exact .inl rfl
    · split at h
      · cases h; exact .inl rfl
      · split at h
        · cases h; exact .inl rfl
        · cases h; exact .inr ⟨_, rfl⟩

lemma sellers_login_cases {check : String → String → Bool} {w p : String}
    {st st' : St} {res : Except ApiError SellerRow}
    (h : sellers_login check w p st = (st', res)) :
    st' = st ∨
      ∃ row, row ∈ st.sellers ∧
        st' = { st with sessions := st.sessions ++ [row.id] } := by
  simp only [sellers_login] at h
  split at h
  · cases h; exact .inl rfl
  · split at h
    · cases h; exact .inl rfl
    · next row heq =>
      split at h
      · cases h; exact .inl rfl
      · cases h
        exact .inr ⟨row, List.mem_of_find?_eq_some heq, rfl⟩

lemma delete_product_cases {sid : Option Nat} {pid : Nat} {st st' : St}
    {res : Except ApiError Unit}
    (h : delete_product sid pid st = (st', res)) :
    st'.sellers = st.sellers ∧ st'.sessions = st.sessions ∧
      ∀ p ∈ st'.products, p ∈ st.products := by
  cases sid with
  | none =>
    simp only [delete_product] at h
    cases h
    exact ⟨rfl, rfl, fun p hp => hp⟩
  | some s =>
    simp only [delete_product] at h
    split at h
    · cases h; exact ⟨rfl, rfl, fun p hp => hp⟩
    · split at h
      · cases h; exact ⟨rfl, rfl, fun p hp => hp⟩
      · cases h
        exact ⟨rfl, rfl, fun p hp => List.mem_of_mem_filter hp⟩

lemma create_product_state_cases {decode : List Nat → Option PILFormat}
    {gen : Nat → Nat → String} {now : String} {sid : Option Nat}
    {name_in details_in : String} {price : Option ℚ}
    {files_in : List FileUpload} {st st' : St}
    {res : Except ApiError (ProductRow × List String)}
    (h : create_product decode gen now sid name_in details_in price files_in
      st = (st', res)) :
    st'.sellers = st.sellers ∧ st'.sessions = st.sessions ∧
      ∀ p ∈ st'.products,
        p ∈ st.products ∨ ∃ i, sid = some i ∧ p.seller_id = some i := by
  cases sid with
  | none =>
    simp only [create_product] at h
    cases h
    exact ⟨rfl, rfl, fun p hp => .inl hp⟩
  | some s =>
    simp only [create_product] at h
    split at h
    · cases h; exact ⟨rfl, rfl, fun p hp => .inl hp⟩
    · split at h
      · cases h; exact ⟨rfl, rfl, fun p hp => .inl hp⟩
      · rcases hloop : uploadLoop decode gen st.nextProductId now
            files_in.enum
            { st with
                products := st.products ++
                  [⟨st.nextProductId, pyStrip name_in, price.getD 0,
                    pyStrip details_in, now, some s⟩]
                nextProductId := st.nextProductId + 1 } []
          with ⟨st2, saved2, err⟩
        rw [hloop] at h
        obtain ⟨-, -, hsel, hprod, hsess, -, -, -, -, -, -, -, -, -, -, -⟩ :=
          uploadLoop_spec decode gen st.nextProductId now files_in.enum _
            [] st2 saved2 err hloop
        have hmem : ∀ p2 : ProductRow, p2 ∈ st2.products →
            p2 ∈ st.products ∨ ∃ i, (some s : Option Nat) = some i ∧
              p2.seller_id = some i := by
          intro p2 hp2
          have hp3 : p2 ∈ st.products ++
              [(⟨st.nextProductId, pyStrip name_in, price.getD 0,
                pyStrip details_in, now, some s⟩ : ProductRow)] := by
            rw [hprod] at hp2
            exact hp2
          rcases List.mem_append.mp hp3 with hp4 | hp4
          · exact .inl hp4
          · right
            refine ⟨s, rfl, ?_⟩
            rcases List.mem_singleton.mp hp4 with rfl
            rfl
        cases err with
        | none =>
          rw [Prod.mk.injEq] at h
          obtain ⟨hst', -⟩ := h
          subst hst'
          exact ⟨hsel, hsess, hmem⟩
        | some e =>
          cases e with
          | valueError msg =>
            rw [Prod.mk.injEq] at h
            obtain ⟨hst', -⟩ := h
            subst hst'
            refine ⟨hsel, hsess, ?_⟩
            intro p2 hp2
            exact hmem p2 (List.mem_of_mem_filter hp2)
          | nonterminating =>
            rw [Prod.mk.injEq] at h
            obtain ⟨hst', -⟩ := h
            subst hst'
            exact ⟨hsel, hsess, hmem⟩

lemma step_preserves_inv {st st' : St}
    (hinv : SessionsValid st ∧ SellerRefsValid st) (hstep : Step st st') :
    SessionsValid st' ∧ SellerRefsValid st' := by
  obtain ⟨hsess, hrefs⟩ := hinv
  cases hstep with
  | register hash now n w p =>
    rcases sellers_register_cases
        (Prod.mk.eta (p := sellers_register hash now n w p st)).symm
      with h0 | ⟨row, heq⟩
    · rw [h0]; exact ⟨hsess, hrefs⟩
    · rw [heq]
      constructor
      · intro i hi
        rcases List.mem_append.mp hi with hi1 | hi1
        · obtain ⟨sr, hsr, rfl⟩ := hsess i hi1
          exact ⟨sr, List.mem_append_left _ hsr, rfl⟩
        · rcases List.mem_singleton.mp hi1 with rfl
          exact ⟨row, List.mem_append_right _ (by simp), rfl⟩
      · intro p2 hp2 i hpi
        obtain ⟨sr, hsr, rfl⟩ := hrefs p2 hp2 i hpi
        exact ⟨sr, List.mem_append_left _ hsr, rfl⟩
  | login check w p =>
    rcases sellers_login_cases
        (Prod.mk.eta (p := sellers_login check w p st)).symm
      with h0 | ⟨row, hrow, heq⟩
    · rw [h0]; exact ⟨hsess, hrefs⟩
    · rw [heq]
      constructor
      · intro i hi
        rcases List.mem_append.mp hi with hi1 | hi1
        · exact hsess i hi1
        · rcases List.mem_singleton.mp hi1 with rfl
          exact ⟨row, hrow, rfl⟩
      · exact hrefs
  | logout sid =>
    constructor
    · intro i hi
      exact hsess i (List.mem_of_mem_filter hi)
    · exact hrefs
  | createP decode gen now name details price fs sid hsid =>
    obtain ⟨hsel, hses, hprods⟩ := create_product_state_cases
      (Prod.mk.eta
        (p := create_product decode gen now sid name details price fs st)).symm
    constructor
    · intro i hi
      rw [hses] at hi
      obtain ⟨sr, hsr, rfl⟩ := hsess i hi
      rw [hsel]
      exact ⟨sr, hsr, rfl⟩
    · intro p2 hp2 i hpi
      rw [hsel]
      rcases hprods p2 hp2 with hp1 | ⟨j, hj, hpj⟩
      · exact hrefs p2 hp1 i hpi
      · rw [hpj] at hpi
        cases Option.some.inj hpi
        exact hsess _ (hsid _ hj)
  | deleteP sid pid hsid =>
    obtain ⟨hsel, hses, hprods⟩ := delete_product_cases
      (Prod.mk.eta (p := delete_product sid pid st)).symm
    constructor
    · intro i hi
      rw [hses] at hi
      obtain ⟨sr, hsr, rfl⟩ := hsess i hi
      rw [hsel]
      exact ⟨sr, hsr, rfl⟩
    · intro p2 hp2 i hpi
      rw [hsel]
      exact hrefs p2 (hprods p2 hp2) i hpi

lemma reach_inv {st : St} (h : Reach st) :
    SessionsValid st ∧ SellerRefsValid st := by
  induction h with
  | init =>
    constructor
    · intro i hi; cases hi
    · intro p hp; cases hp
  | step hr hs ih => exact step_preserves_inv ih hs

/-- C7.  In every state reachable from the empty store through the request
handlers, every product whose `seller_id` is set references an existing
seller row. -/
theorem seller_refs_valid_of_reach (st : St) (h : Reach st) :
    SellerRefsValid st :=
  (reach_inv h).2

/-- A concrete reachable state: one registered seller. -/
def reachDemo1 : St :=
  (sellers_register (fun p => p) "t0" "Alice" "+1234567890" "1234" St.empty).1

/-- A concrete reachable state: that seller then creates a product with one
JPEG image through their session. -/
def reachDemo2 : St :=
  (create_product (fun _ => some PILFormat.JPEG)
    (fun i j => toString i ++ "-" ++ (List.replicate j 'a').asString)
    "t1" (some 1) "Lamp" "Brass" (some 1)
    [⟨"a.jpg", "image/jpeg", [7]⟩] reachDemo1).1

/-- Witness for C7: the invariant holds of the concrete two-step reachable
state with a registered seller and their product. -/
theorem seller_refs_valid_of_reach_witness : SellerRefsValid reachDemo2 :=
  seller_refs_valid_of_reach reachDemo2
    (Reach.step
      (Reach.step Reach.init
        (Step.register (fun p => p) "t0" "Alice" "+1234567890" "1234"))
      (Step.createP (fun _ => some PILFormat.JPEG)
        (fun i j => toString i ++ "-" ++ (List.replicate j 'a').asString)
        "t1" "Lamp" "Brass" (some 1) [⟨"a.jpg", "image/jpeg", [7]⟩]
        (some 1)
        (by
          intro i hi
          injection hi with hi2
          subst hi2
          decide)))

end Marketplace
